import Mathlib

/-!
Verification of the work-partitioning, parallel-dispatch, and ordered-merge
engine of the reV repository, shallowly embedded from:

* `Summarize.summarize_dset`, `Summarize._compute_sites_summary` and
  `Summarize._compute_ds_summary` in `src/reV/utilities/qa_qc.py`;
* the `peregrine` dispatch command in `src/reV/generation/cli_gen.py`;
* `AggregationConfig._preflight` in `src/reV/config/supply_curve_configs.py`.

Conventions of the embedding:

* Python exceptions are an explicit error type (`PyError`) and fallible code
  returns `Except PyError _`.
* Numeric dataset values are modelled as exact integers (`Int`); the claims
  under study constrain row ordering and the explicit per-site `sum` column,
  which the sources compute by plain addition, so an exact-arithmetic carrier
  is used (float64 rounding is not modelled).
* The nondeterministic completion order of the local process pool is an
  explicit parameter: a completion `log` listing `(chunk index, result)`
  pairs in the order the futures happened to finish.
-/

/-- Python exception outcomes arising in the embedded code paths.  The
constructors `invalidPartitionError` and `mergeIntegrityError` come from the
specification's error taxonomy (they name no exception present in the code)
and exist so that statements about them can be expressed. -/
inductive PyError : Type
  | typeError
  | zeroDivisionError
  | valueError
  | configError (missing : List String)
  | invalidPartitionError
  | mergeIntegrityError
  | runtimeError
deriving DecidableEq, Repr

deriving instance DecidableEq for Except

/-- Ceiling division on naturals: `(n + k - 1) / k`.  This is the exact value
of `int(np.ceil(n / k))` (qa_qc.py line 138) and of `ceil(n / k)`
(cli_gen.py line 256) for positive integers. -/
def ceilDivNat (n k : Nat) : Nat := (n + k - 1) / k

/-- Division point `i` of `np.array_split(np.arange(n), k)`: numpy gives the
first `n % k` sections size `n / k + 1` and the rest size `n / k`, so section
`i` starts at `i * (n / k) + min i (n % k)`. -/
def npSplitPoint (n k i : Nat) : Nat := i * (n / k) + min i (n % k)

/-- `np.array_split(np.arange(n), k)` (qa_qc.py lines 136-138 and 156-157) as
the list of half-open index ranges of the `k` sections. -/
def arraySplit (n k : Nat) : List (Nat × Nat) :=
  (List.range k).map (fun i => (npSplitPoint n k i, npSplitPoint n k (i + 1)))

/-- The site indices contained in one chunk (a half-open range). -/
def chunkSites (c : Nat × Nat) : List Nat := List.range' c.1 (c.2 - c.1)

/-- `int(np.ceil(n / ps))` over Python integers: division by zero raises
`ZeroDivisionError`; for negative `ps` the quotient is nonpositive and its
ceiling is `-(n / |ps|)` (floor division). -/
def pyCeilSections (n : Nat) (ps : Int) : Except PyError Int :=
  if ps = 0 then .error .zeroDivisionError
  else if 0 < ps then .ok (Int.ofNat (ceilDivNat n ps.toNat))
  else .ok (-(Int.ofNat (n / ps.natAbs)))

/-- Chunk planning as performed by `summarize_dset` (qa_qc.py lines 136-138,
156-157): compute the section count by ceiling division, then
`np.array_split`, which raises `ValueError` unless the section count is
positive. -/
def planChunks (n : Nat) (ps : Int) : Except PyError (List (Nat × Nat)) := do
  let k ← pyCeilSections n ps
  if k ≤ 0 then
    .error .valueError
  else
    .ok (arraySplit n k.toNat)

/-- Per-site sum over the time axis: `sites_data.sum(axis=0)`
(qa_qc.py line 77).  `data t s` is the dataset value at time step `t` and
site `s`; `T` is the length of the time axis. -/
def siteSum (data : Nat → Nat → Int) (T s : Nat) : Int :=
  ((List.range T).map (fun t => data t s)).sum

/-- `Summarize._compute_sites_summary` (qa_qc.py lines 51-79): one summary row
per requested site, indexed by the site gid, in the order the sites were
requested.  The row is abstracted to its index and the explicit `sum` column
added on line 77; the `describe()` percentile columns are not modelled. -/
def compute_sites_summary (data : Nat → Nat → Int) (T : Nat)
    (sites : List Nat) : List (Nat × Int) :=
  sites.map (fun s => (s, siteSum data T s))

/-- The result of a future of the process pool, read from the completion log:
`future.result()` for the future submitted for chunk `i`. -/
def futureResult (log : List (Nat × α)) (i : Nat) : Option α :=
  (log.find? (fun e => e.1 == i)).map Prod.snd

/-- `summary = [future.result() for future in futures]` (qa_qc.py line 148):
the futures list is in chunk submission order, so the partial results are
collected in chunk-index order no matter in which order the log says they
completed.  `none` would mean a chunk whose result never appears in the log
(a future that never resolves). -/
def collectResults (log : List (Nat × α)) (k : Nat) : Option (List α) :=
  (List.range k).mapM (futureResult log)

/-- `summary = pd.concat(summary)` (qa_qc.py lines 150 and 164): plain
concatenation of the partial tables; pandas raises `ValueError` when given no
objects to concatenate and performs no row-count check of any kind. -/
def mergeResults (parts : List (List (Nat × Int))) :
    Except PyError (List (Nat × Int)) :=
  if parts.isEmpty then .error .valueError
  else .ok parts.flatten

/-- Sum of the chunks' declared unit spans. -/
def spanSum (chunks : List (Nat × Nat)) : Nat :=
  (chunks.map (fun c => c.2 - c.1)).sum

/-- A dataset of the store, as seen through `get_dset_properties`:
either 1-D (a plain vector) or 2-D with `T` time steps, `n` sites and the
store's native chunk size `dsChunks`. -/
inductive DSet : Type
  | oneD (v : List Int)
  | twoD (T n dsChunks : Nat) (data : Nat → Nat → Int)

/-- The summary returned by `summarize_dset`: a per-site table for 2-D
datasets, a single column of whole-dataset statistics (abstracted to the
explicit `sum` row of qa_qc.py line 101) for 1-D datasets. -/
inductive Summary : Type
  | table (rows : List (Nat × Int))
  | vec (sum : Int)
deriving DecidableEq, Repr

/-- `Summarize._compute_ds_summary` (qa_qc.py lines 81-103). -/
def compute_ds_summary (v : List Int) : Summary := .vec v.sum

/-- Python `max_workers > 1` where `max_workers` is `None` or an integer
(qa_qc.py lines 132 and 168): comparing `None` with an int raises
`TypeError`. -/
def pyGtOne : Option Int → Except PyError Bool
  | none => .error .typeError
  | some m => .ok (decide (1 < m))

/-- The warning text of qa_qc.py lines 169-170. -/
def warn1D : String :=
  "Computing summary statistics for 1D datasets will proceed in serial"

/-- `Summarize.summarize_dset` (qa_qc.py lines 105-179).  Returns the list of
warnings emitted and the summary.  `log` is the completion log of the process
pool, consulted only on the parallel path; the store write of `out_path` is
outside the model. -/
def summarize_dset (d : DSet) (process_size : Option Int)
    (max_workers : Option Int) (log : List (Nat × List (Nat × Int))) :
    Except PyError (List String × Summary) := do
  match d with
  | .twoD T n dsChunks data =>
    -- sites = np.arange(ds_shape[1])
    let par ← pyGtOne max_workers
    if par then
      -- if process_size is None: process_size = ds_chunks
      let ps := process_size.getD (Int.ofNat dsChunks)
      let chunks ← planChunks n ps
      -- futures are submitted per chunk in chunk order (lines 143-146) and
      -- their results gathered in that same order (line 148)
      match collectResults log chunks.length with
      | some parts => do
        let merged ← mergeResults parts
        .ok ([], .table merged)
      | none => .error .runtimeError
    else
      match process_size with
      | none =>
        .ok ([], .table (compute_sites_summary data T (List.range n)))
      | some ps => do
        let chunks ← planChunks n ps
        let merged ← mergeResults
          (chunks.map (fun c => compute_sites_summary data T (chunkSites c)))
        .ok ([], .table merged)
  | .oneD v =>
    -- if process_size is not None or max_workers > 1: warn (short-circuit or)
    let warnFlag ←
      if process_size.isSome then pure true
      else pyGtOne max_workers
    let warns := if warnFlag then [warn1D] else []
    .ok (warns, compute_ds_summary v)

/-- `sites_per_node = ceil(len(pp.sites) / nodes)` (cli_gen.py line 256). -/
def sitesPerNode (n nodes : Nat) : Nat := ceilDivNat n nodes

/-- Modelled from the spec: `PointsControl(pp, sites_per_split)` (module
`reV.config.project_points`, not under `src/`) iterates over consecutive
chunks of `sites_per_split` sites each, covering all `n` sites in order, the
last chunk possibly smaller when `sites_per_split` does not divide `n`. -/
def pointsControlSplit (n spn : Nat) : List (Nat × Nat) :=
  (List.range (ceilDivNat n spn)).map
    (fun i => (min (i * spn) n, min ((i + 1) * spn) n))

/-- The characters of the Python string `'.h5'`. -/
def h5Ext : List Char := ".h5".data

/-- The characters of the Python string `'_node_'`. -/
def nodeTag : List Char := "_node_".data

/-- The characters of the Python string `'_'`. -/
def usTag : List Char := "_".data

/-- Python `str.endswith(suffix)`. -/
def pyEndsWith (s suffix : List Char) : Bool := suffix.isSuffixOf s

/-- Python `str.strip(chars)`: removes all leading and all trailing
characters that belong to the character set `chars` (it does not remove the
string `chars` as a unit). -/
def pyStrip (chars s : List Char) : List Char :=
  ((s.dropWhile (chars.contains ·)).reverse.dropWhile (chars.contains ·)).reverse

/-- cli_gen.py lines 268-270: `if fout.endswith('.h5'): fout =
fout.strip('.h5')`. -/
def stripH5 (fout : List Char) : List Char :=
  if pyEndsWith fout h5Ext then pyStrip h5Ext fout else fout

/-- Decimal digits of `n`, fuel-driven so that it computes by kernel
reduction; `natDecimalAux (n + 1) n` renders every `n` completely. -/
def natDecimalAux : Nat → Nat → List Char
  | 0, _ => []
  | fuel + 1, n =>
    if n < 10 then [Nat.digitChar n]
    else natDecimalAux fuel (n / 10) ++ [Nat.digitChar (n % 10)]

/-- Python `'{}'.format(i)` for a nonnegative integer `i`: its decimal
rendering. -/
def natDecimal (n : Nat) : List Char := natDecimalAux (n + 1) n

/-- The job handle recorded for one chunk of the peregrine dispatch loop.
Modelled from the spec: the `PBS` class (module `reV.execution.execution`,
not under `src/`) submits the command on construction and stores the
batch-queue job identifier in `pbs.id`, which is `None` when the submission
failed; construction itself does not raise. -/
structure PBSJob where
  nodeName : List Char
  foutNode : List Char
  id : Option Nat
deriving DecidableEq, Repr

/-- One iteration of the peregrine dispatch loop body
(cli_gen.py lines 264-322): strip `'.h5'` from the carried `fout` (the loop
reassigns `fout`, so the stripped value is carried into later iterations),
derive the node name and the node output file name for chunk `i`, submit,
and append `jobs[i] = pbs`.  `backend i` is the submission outcome for
chunk `i`. -/
def peregrineStep (name : List Char) (backend : Nat → Option Nat)
    (st : List Char × List (Nat × PBSJob)) (i : Nat) :
    List Char × List (Nat × PBSJob) :=
  let fout := stripH5 st.1
  let foutNode := fout ++ nodeTag ++ natDecimal i ++ h5Ext
  let nodeName := name ++ usTag ++ natDecimal i
  (fout, st.2 ++ [(i, ⟨nodeName, foutNode, backend i⟩)])

/-- The peregrine dispatch loop over `n` chunks
(`for i, split in enumerate(pc)`, cli_gen.py lines 262-324), returning the
`jobs` registry in insertion order. -/
def peregrineJobs (name fout : List Char) (n : Nat)
    (backend : Nat → Option Nat) : List (Nat × PBSJob) :=
  ((List.range n).foldl (peregrineStep name backend) (fout, [])).2

/-- `AggregationConfig.REQUIREMENTS` (supply_curve_configs.py line 19). -/
def REQUIREMENTS : List String :=
  ["fpath_excl", "fpath_gen", "fpath_techmap", "dset_tm"]

/-- Python truthiness of `any(s)` for a string `s`: iterating a string yields
its characters as one-character strings, all of which are truthy, so `any(s)`
is true iff `s` is nonempty. -/
def pyAnyStr (s : String) : Bool := s.data.any (fun _ => true)

/-- The requirement keys reported missing by `_preflight`: those whose
configured value is `None` (`self.get(req, None) is None`).  `present k`
models `self.get(k, None) is not None`. -/
def preflightMissing (present : String → Bool) : List String :=
  REQUIREMENTS.filter (fun r => !present r)

/-- `AggregationConfig._preflight` (supply_curve_configs.py lines 41-49) up to
its first check: after the loop the variable `req` is left holding the last
requirement name, and the code tests `any(req)` — over that string — instead
of `any(missing)`. -/
def preflightCheck (present : String → Bool) : Except PyError Unit :=
  let missing := preflightMissing present
  let req := REQUIREMENTS.getLastD default
  if pyAnyStr req then
    .error (.configError missing)
  else
    .ok ()

/-- Reads decimal digits back into the value they denote; proof-side inverse
of `natDecimal`. -/
def parseDec (l : List Char) : Nat :=
  l.foldl (fun a c => 10 * a + (c.toNat - 48)) 0

/-- A concrete 2-D dataset used as witness input: value `t + s` at time step
`t` and site `s`. -/
def exData : Nat → Nat → Int := fun t s => (t : Int) + s

/-- A concrete submission backend used as witness input: submission of chunk
2 fails (returns no job id), all other chunks get a job id. -/
def exBackend : Nat → Option Nat := fun j => if j = 2 then none else some (100 + j)

/-! ## Arithmetic facts about ceiling division -/

/-- `n` units fit in `ceilDivNat n k` chunks of `k`. -/
theorem le_ceilDivNat_mul (n k : Nat) (hk : 0 < k) : n ≤ ceilDivNat n k * k := by
  unfold ceilDivNat
  have h2 := Nat.div_add_mod (n + k - 1) k
  have h3 : (n + k - 1) % k < k := Nat.mod_lt _ hk
  rw [Nat.mul_comm]
  generalize (n + k - 1) / k = q at *
  generalize (n + k - 1) % k = m at *
  generalize k * q = X at *
  omega

/-- One chunk fewer than `ceilDivNat n k` does not cover `n` units. -/
theorem ceilDivNat_pred_mul_lt (n k : Nat) (hn : 0 < n) (hk : 0 < k) :
    (ceilDivNat n k - 1) * k < n := by
  have h1 : ceilDivNat n k * k ≤ n + k - 1 := by
    unfold ceilDivNat
    exact Nat.div_mul_le_self _ _
  rw [Nat.sub_mul, Nat.one_mul]
  generalize ceilDivNat n k * k = X at *
  omega

/-- Ceiling division of a positive numerator is positive. -/
theorem ceilDivNat_pos (n k : Nat) (hn : 0 < n) (hk : 0 < k) :
    0 < ceilDivNat n k := by
  rcases Nat.eq_zero_or_pos (ceilDivNat n k) with h | h
  · have h2 := le_ceilDivNat_mul n k hk
    rw [h, Nat.zero_mul] at h2
    omega
  · exact h

/-! ## Coverage of the planned chunks -/

/-- A chain of adjacent bounds bounds the endpoints. -/
theorem mono_chain (p : Nat → Nat) :
    ∀ k, (∀ i, i < k → p i ≤ p (i + 1)) → p 0 ≤ p k
  | 0, _ => Nat.le_refl _
  | k + 1, h =>
    Nat.le_trans (mono_chain p k (fun i hi => h i (Nat.lt_succ_of_lt hi)))
      (h k (Nat.lt_succ_self k))

/-- Concatenating the half-open ranges between consecutive division points of
a monotone sequence yields the full range between the endpoints. -/
theorem flatten_ranges (p : Nat → Nat) :
    ∀ k, (∀ i, i < k → p i ≤ p (i + 1)) →
    ((List.range k).map (fun i => List.range' (p i) (p (i + 1) - p i))).flatten
      = List.range' (p 0) (p k - p 0) := by
  intro k
  induction k with
  | zero => intro _; simp
  | succ k ih =>
    intro h
    rw [List.range_succ, List.map_append, List.flatten_append,
      ih (fun i hi => h i (Nat.lt_succ_of_lt hi))]
    have h0k : p 0 ≤ p k := mono_chain p k (fun i hi => h i (Nat.lt_succ_of_lt hi))
    have hk1 : p k ≤ p (k + 1) := h k (Nat.lt_succ_self k)
    simp only [List.map_cons, List.map_nil, List.flatten_cons, List.flatten_nil,
      List.append_nil]
    have hra := List.range'_append_1 (p 0) (p k - p 0) (p (k + 1) - p k)
    rw [Nat.add_sub_cancel' h0k] at hra
    rw [hra]
    congr 1
    omega

/-- The first division point of `np.array_split` is `0`. -/
theorem npSplitPoint_zero (n k : Nat) : npSplitPoint n k 0 = 0 := by
  simp [npSplitPoint]

/-- The last division point of `np.array_split` is `n`. -/
theorem npSplitPoint_last (n k : Nat) (hk : 0 < k) : npSplitPoint n k k = n := by
  unfold npSplitPoint
  have h1 : n % k < k := Nat.mod_lt _ hk
  rw [Nat.min_eq_right (Nat.le_of_lt h1)]
  exact Nat.div_add_mod n k

/-- The division points of `np.array_split` are monotone. -/
theorem npSplitPoint_mono (n k i : Nat) :
    npSplitPoint n k i ≤ npSplitPoint n k (i + 1) :=
  Nat.add_le_add (Nat.mul_le_mul_right _ (Nat.le_succ i))
    (min_le_min (Nat.le_succ i) (Nat.le_refl _))

/-- The sections of `np.array_split(np.arange(n), k)`, concatenated in
section order, are exactly `0, 1, ..., n - 1`: contiguous, disjoint, in
order, covering `[0, n)` with no gap, overlap or duplication. -/
theorem arraySplit_flatten (n k : Nat) (hk : 0 < k) :
    ((arraySplit n k).map chunkSites).flatten = List.range n := by
  unfold arraySplit
  rw [List.map_map]
  have hcomp : (chunkSites ∘ fun i => (npSplitPoint n k i, npSplitPoint n k (i + 1)))
      = fun i => List.range' (npSplitPoint n k i)
        (npSplitPoint n k (i + 1) - npSplitPoint n k i) := rfl
  rw [hcomp, flatten_ranges _ k (fun i _ => npSplitPoint_mono n k i),
    npSplitPoint_zero, npSplitPoint_last n k hk, Nat.sub_zero,
    List.range_eq_range']

/-- The number of sections `np.array_split` produces. -/
theorem arraySplit_length (n k : Nat) : (arraySplit n k).length = k := by
  simp [arraySplit]

/-- On a positive site count and a positive `process_size`, the planner of
`summarize_dset` succeeds and produces `ceil(n / ps)` sections. -/
theorem planChunks_eq_ok (n : Nat) (ps : Int) (hn : 0 < n) (hps : 0 < ps) :
    planChunks n ps = .ok (arraySplit n (ceilDivNat n ps.toNat)) := by
  have hpsn : 0 < ps.toNat := by omega
  have hk : 0 < ceilDivNat n ps.toNat := ceilDivNat_pos n _ hn hpsn
  have hsec : pyCeilSections n ps = .ok (Int.ofNat (ceilDivNat n ps.toNat)) := by
    unfold pyCeilSections
    rw [if_neg (by omega), if_pos hps]
  unfold planChunks
  rw [hsec]
  show (if (Int.ofNat (ceilDivNat n ps.toNat)) ≤ 0 then _ else _) = _
  rw [if_neg (by rw [Int.ofNat_eq_natCast]; exact_mod_cast Nat.not_le.mpr hk)]
  simp

/-! ## Order-normalized collection of pool results -/

/-- Reading ranged indices through a lookup that agrees with a target list
reproduces the target list. -/
theorem mapM_option_range' {β : Type} (f : Nat → Option β) :
    ∀ (rs : List β) (s : Nat), (∀ i, i < rs.length → f (s + i) = rs[i]?) →
    (List.range' s rs.length).mapM f = some rs := by
  intro rs
  induction rs with
  | nil => intro s _; rfl
  | cons b t ih =>
    intro s h
    rw [List.length_cons, List.range'_succ, List.mapM_cons]
    have h0 : f s = some b := by
      have := h 0 (by simp)
      simpa using this
    have ht : ∀ i, i < t.length → f (s + 1 + i) = t[i]? := by
      intro i hi
      have := h (i + 1) (by simp; omega)
      rw [show s + (i + 1) = s + 1 + i by omega] at this
      simpa using this
    rw [h0, ih (s + 1) ht]
    rfl

/-- If the completion log is (any) permutation of the per-chunk results, the
future of chunk `i` resolves to chunk `i`'s own result. -/
theorem futureResult_of_perm {α : Type} (rs : List α) (log : List (Nat × α))
    (hperm : log.Perm rs.enum) (i : Nat) (v : α) (hv : rs[i]? = some v) :
    futureResult log i = some v := by
  unfold futureResult
  have hmem : (i, v) ∈ log :=
    hperm.symm.subset (List.mk_mem_enum_iff_getElem?.2 hv)
  have hsome : (log.find? (fun e => e.1 == i)).isSome := by
    rw [List.find?_isSome]
    exact ⟨(i, v), hmem, by simp⟩
  obtain ⟨e, he⟩ := Option.isSome_iff_exists.1 hsome
  have hp := List.find?_some he
  have he1 : e.1 = i := by simpa using hp
  have hel : e ∈ rs.enum := hperm.subset (List.mem_of_find?_eq_some he)
  have he2 : rs[e.1]? = some e.2 := List.mem_enum_iff_getElem?.1 hel
  rw [he1, hv] at he2
  have he3 : e.2 = v := by simpa using he2.symm
  rw [he]
  simp [he3]

/-- Collecting the futures in submission order returns the per-chunk results
in chunk order, for every completion order of the pool. -/
theorem collectResults_of_perm {α : Type} (rs : List α) (log : List (Nat × α))
    (hperm : log.Perm rs.enum) : collectResults log rs.length = some rs := by
  unfold collectResults
  rw [List.range_eq_range']
  apply mapM_option_range'
  intro i hi
  rw [Nat.zero_add]
  have hv : rs[i]? = some rs[i] := List.getElem?_eq_getElem hi
  rw [hv]
  exact futureResult_of_perm rs log hperm i _ hv

/-! ## Chunked summaries concatenate to the whole summary -/

/-- Concatenating per-chunk summaries equals summarizing the concatenated
site lists: the summary row of a site depends only on that site. -/
theorem compute_sites_summary_flatten (data : Nat → Nat → Int) (T : Nat)
    (chunks : List (Nat × Nat)) :
    (chunks.map (fun c => compute_sites_summary data T (chunkSites c))).flatten
      = compute_sites_summary data T ((chunks.map chunkSites).flatten) := by
  unfold compute_sites_summary
  rw [List.map_flatten, List.map_map]
  rfl

/-- The row index (`gid`) column of a summary is the requested site list. -/
theorem compute_sites_summary_fst (data : Nat → Nat → Int) (T : Nat)
    (sites : List Nat) :
    (compute_sites_summary data T sites).map Prod.fst = sites := by
  unfold compute_sites_summary
  rw [List.map_map]
  exact List.map_id _

/-! ## Decimal rendering of chunk indices -/

/-- Value of a single decimal digit character. -/
theorem digitChar_val : ∀ k, k < 10 → (Nat.digitChar k).toNat - 48 = k := by
  decide

/-- Appending one digit multiplies the parsed value by ten and adds it. -/
theorem parseDec_append_digit (xs : List Char) (c : Char) :
    parseDec (xs ++ [c]) = 10 * parseDec xs + (c.toNat - 48) := by
  unfold parseDec
  rw [List.foldl_append]
  rfl

/-- The fuel-driven renderer is parsed back to its input whenever the fuel
suffices. -/
theorem parseDec_natDecimalAux :
    ∀ fuel n, n < fuel → parseDec (natDecimalAux fuel n) = n := by
  intro fuel
  induction fuel with
  | zero => intro n hn; exact absurd hn (Nat.not_lt_zero n)
  | succ fuel ih =>
    intro n hn
    unfold natDecimalAux
    by_cases h : n < 10
    · rw [if_pos h]
      have hd := digitChar_val n h
      unfold parseDec
      simp only [List.foldl_cons, List.foldl_nil, Nat.mul_zero, Nat.zero_add]
      exact hd
    · rw [if_neg h]
      rw [parseDec_append_digit, ih (n / 10) (by omega)]
      have hd := digitChar_val (n % 10) (Nat.mod_lt n (by omega))
      rw [hd]
      omega

/-- Distinct numbers have distinct decimal renderings. -/
theorem natDecimal_injective (a b : Nat) (h : natDecimal a = natDecimal b) :
    a = b := by
  have ha := parseDec_natDecimalAux (a + 1) a (Nat.lt_succ_self a)
  have hb := parseDec_natDecimalAux (b + 1) b (Nat.lt_succ_self b)
  unfold natDecimal at h
  rw [h, hb] at ha
  exact ha.symm

/-! ## Behaviour of the '.h5' strip in the dispatch loop -/

/-- The head of `dropWhile p` does not satisfy `p`. -/
theorem head_dropWhile_not {α : Type} (p : α → Bool) :
    ∀ (l : List α) (a : α) (t : List α), l.dropWhile p = a :: t → p a = false := by
  intro l
  induction l with
  | nil => intro a t h; simp [List.dropWhile] at h
  | cons b l ih =>
    intro a t h
    rw [List.dropWhile_cons] at h
    by_cases hb : p b
    · rw [if_pos hb] at h
      exact ih a t h
    · rw [if_neg hb] at h
      cases h
      simpa using hb

/-- A stripped name never again ends in `'.h5'`: `str.strip('.h5')` removes
every trailing character of the set, so the result cannot end in `'5'`. -/
theorem pyStrip_not_endsWith_h5 (f : List Char) :
    pyEndsWith (pyStrip h5Ext f) h5Ext = false := by
  unfold pyEndsWith pyStrip List.isSuffixOf
  rw [List.reverse_reverse]
  cases hd : (f.dropWhile (h5Ext.contains ·)).reverse.dropWhile (h5Ext.contains ·) with
  | nil => rfl
  | cons a t =>
    have ha := head_dropWhile_not _ _ a t hd
    have ha5 : ('5' == a) = false := by
      rcases Bool.eq_false_or_eq_true ('5' == a) with h5 | h5
      · have : a = '5' := (eq_of_beq h5).symm
        rw [this] at ha
        simp [h5Ext] at ha
      · exact h5
    show List.isPrefixOf h5Ext.reverse (a :: t) = false
    have hrev : h5Ext.reverse = ['5', 'h', '.'] := rfl
    rw [hrev, List.isPrefixOf_cons₂, ha5]
    rfl

/-- `stripH5` leaves an already-stripped name unchanged, so the `fout`
reassignment in the loop body stabilizes after the first iteration. -/
theorem stripH5_idem (f : List Char) : stripH5 (stripH5 f) = stripH5 f := by
  by_cases h : pyEndsWith f h5Ext
  · have hs : stripH5 f = pyStrip h5Ext f := by
      unfold stripH5
      rw [if_pos h]
    rw [hs]
    unfold stripH5
    rw [pyStrip_not_endsWith_h5 f]
    simp
  · have hs : stripH5 f = f := by
      unfold stripH5
      rw [if_neg h]
    rw [hs, hs]

/-! ## Closed form of the dispatch loop -/

/-- Unrolling of the peregrine loop: starting from any carried `fout` and any
already-recorded jobs, the loop appends one registry entry per chunk index,
every entry derived from the once-stripped base name.  The `fout`
reassignment inside the body makes iteration `i` use `stripH5` of the carried
value, which `stripH5_idem` collapses to `stripH5` of the original. -/
theorem foldl_peregrineStep (name : List Char) (backend : Nat → Option Nat) :
    ∀ (l : List Nat) (f : List Char) (jobs : List (Nat × PBSJob)),
    (l.foldl (peregrineStep name backend) (f, jobs)).2
      = jobs ++ l.map (fun i =>
          (i, ⟨name ++ usTag ++ natDecimal i,
               stripH5 f ++ nodeTag ++ natDecimal i ++ h5Ext, backend i⟩)) := by
  intro l
  induction l with
  | nil => intro f jobs; simp
  | cons i l ih =>
    intro f jobs
    rw [List.foldl_cons, List.map_cons]
    have hstep : peregrineStep name backend (f, jobs) i
        = (stripH5 f, jobs ++ [(i, ⟨name ++ usTag ++ natDecimal i,
            stripH5 f ++ nodeTag ++ natDecimal i ++ h5Ext, backend i⟩)]) := rfl
    rw [hstep, ih, stripH5_idem]
    simp

/-- The registry of the peregrine loop in closed form. -/
theorem peregrineJobs_eq (name fout : List Char) (n : Nat)
    (backend : Nat → Option Nat) :
    peregrineJobs name fout n backend
      = (List.range n).map (fun i =>
          (i, ⟨name ++ usTag ++ natDecimal i,
               stripH5 fout ++ nodeTag ++ natDecimal i ++ h5Ext, backend i⟩)) := by
  unfold peregrineJobs
  rw [foldl_peregrineStep]
  simp

/-- Two distinct chunk indices get distinct node output names. -/
theorem foutNode_inj (base : List Char) (i j : Nat)
    (h : base ++ nodeTag ++ natDecimal i ++ h5Ext
       = base ++ nodeTag ++ natDecimal j ++ h5Ext) : i = j := by
  have h2 : (base ++ nodeTag) ++ natDecimal i = (base ++ nodeTag) ++ natDecimal j :=
    List.append_cancel_right h
  exact natDecimal_injective i j (List.append_cancel_left h2)

/-! ## Monad and merge reductions -/

/-- Reduction of `Except` bind on a success value. -/
theorem except_bind_ok {ε α β : Type} (a : α) (f : α → Except ε β) :
    (Except.ok a >>= f) = f a := rfl

/-- `pd.concat` on a nonempty list of partial tables is plain
concatenation. -/
theorem mergeResults_eq_ok (parts : List (List (Nat × Int))) (hne : parts ≠ []) :
    mergeResults parts = .ok parts.flatten := by
  unfold mergeResults
  rw [if_neg (by simpa [List.isEmpty_iff] using hne)]

/-- `np.array_split` into a positive number of sections is nonempty. -/
theorem arraySplit_ne_nil (n k : Nat) (hk : 0 < k) : arraySplit n k ≠ [] := by
  intro hc
  have hl := arraySplit_length n k
  rw [hc] at hl
  simp at hl
  omega

/-! ## The claims -/

/-- C1: for every 2-D dataset summarized with `max_workers > 1`, the merged
summary table of `Summarize.summarize_dset` lists site rows in the original
ascending site order regardless of the order in which the worker futures
complete: whatever permutation of the per-chunk results the completion log
`log` is, partial results are collected in chunk-submission order and
concatenated in that order, yielding the table of all sites `0, ..., n-1` in
order. -/
theorem c1_parallel_rows_in_site_order (T n dsChunks : Nat)
    (data : Nat → Nat → Int) (ps m : Int) (log : List (Nat × List (Nat × Int)))
    (hn : 0 < n) (hps : 0 < ps) (hm : 1 < m)
    (hlog : log.Perm (((arraySplit n (ceilDivNat n ps.toNat)).map
      (fun c => compute_sites_summary data T (chunkSites c))).enum)) :
    summarize_dset (.twoD T n dsChunks data) (some ps) (some m) log
        = .ok ([], .table (compute_sites_summary data T (List.range n)))
      ∧ (compute_sites_summary data T (List.range n)).map Prod.fst
        = List.range n := by
  have hkpos : 0 < ceilDivNat n ps.toNat := ceilDivNat_pos n ps.toNat hn (by omega)
  have hgt : pyGtOne (some m) = .ok true := by simp [pyGtOne, hm]
  have hplan := planChunks_eq_ok n ps hn hps
  have hrs : collectResults log ((arraySplit n (ceilDivNat n ps.toNat)).map
      (fun c => compute_sites_summary data T (chunkSites c))).length
      = some ((arraySplit n (ceilDivNat n ps.toNat)).map
        (fun c => compute_sites_summary data T (chunkSites c))) :=
    collectResults_of_perm _ log hlog
  rw [List.length_map] at hrs
  constructor
  · unfold summarize_dset
    rw [hgt]
    simp only [except_bind_ok, Option.getD]
    rw [hplan]
    simp only [except_bind_ok]
    rw [hrs]
    simp only [if_true]
    rw [mergeResults_eq_ok _
      (fun hc => arraySplit_ne_nil n _ hkpos (List.map_eq_nil_iff.1 hc))]
    simp only [except_bind_ok]
    rw [compute_sites_summary_flatten, arraySplit_flatten n _ hkpos]
  · exact compute_sites_summary_fst data T (List.range n)

/-- C1 witness: five sites in chunks of two, two workers, and a completion
log in which chunk 2 finishes first and chunk 1 last; the summary still lists
sites 0..4 in order. -/
theorem c1_witness :
    ((0:Nat) < 5 ∧ (0:Int) < 2 ∧ (1:Int) < 2
      ∧ ([(2, [(4, 9)]), (0, [(0, 1), (1, 3)]), (1, [(2, 5), (3, 7)])] :
          List (Nat × List (Nat × Int))).Perm
        (((arraySplit 5 (ceilDivNat 5 (2:Int).toNat)).map
          (fun c => compute_sites_summary exData 2 (chunkSites c))).enum))
    ∧ (summarize_dset (.twoD 2 5 2 exData) (some 2) (some 2)
          [(2, [(4, 9)]), (0, [(0, 1), (1, 3)]), (1, [(2, 5), (3, 7)])]
        = .ok ([], .table (compute_sites_summary exData 2 (List.range 5)))
      ∧ (compute_sites_summary exData 2 (List.range 5)).map Prod.fst
        = List.range 5) :=
  ⟨⟨by decide, by decide, by decide, by decide⟩,
    c1_parallel_rows_in_site_order 2 5 2 exData 2 2
      [(2, [(4, 9)]), (0, [(0, 1), (1, 3)]), (1, [(2, 5), (3, 7)])]
      (by decide) (by decide) (by decide) (by decide)⟩

/-- C2: for every 2-D dataset and positive `process_size`, the chunked serial
path of `summarize_dset` (split into `ceil(n / process_size)` groups, per-group
statistics, concatenate) returns exactly the table of the single-pass path
over all `n` sites in one call; in the exact-arithmetic model the per-site
sum column is identical. -/
theorem c2_chunked_equals_single_pass (T n dsChunks : Nat)
    (data : Nat → Nat → Int) (ps mw : Int)
    (hn : 0 < n) (hps : 0 < ps) (hmw : mw ≤ 1) :
    summarize_dset (.twoD T n dsChunks data) (some ps) (some mw) []
        = summarize_dset (.twoD T n dsChunks data) none (some mw) []
      ∧ summarize_dset (.twoD T n dsChunks data) (some ps) (some mw) []
        = .ok ([], .table (compute_sites_summary data T (List.range n))) := by
  have hkpos : 0 < ceilDivNat n ps.toNat := ceilDivNat_pos n ps.toNat hn (by omega)
  have hgt : pyGtOne (some mw) = .ok false := by
    have : ¬ (1 < mw) := by omega
    simp [pyGtOne, this]
  have hplan := planChunks_eq_ok n ps hn hps
  have hchunked : summarize_dset (.twoD T n dsChunks data) (some ps) (some mw) []
      = .ok ([], .table (compute_sites_summary data T (List.range n))) := by
    unfold summarize_dset
    rw [hgt]
    simp only [except_bind_ok, Bool.false_eq_true, if_false]
    rw [hplan]
    simp only [except_bind_ok]
    rw [mergeResults_eq_ok _
      (fun hc => arraySplit_ne_nil n _ hkpos (List.map_eq_nil_iff.1 hc))]
    simp only [except_bind_ok]
    rw [compute_sites_summary_flatten, arraySplit_flatten n _ hkpos]
  have hsingle : summarize_dset (.twoD T n dsChunks data) none (some mw) []
      = .ok ([], .table (compute_sites_summary data T (List.range n))) := by
    unfold summarize_dset
    rw [hgt]
    simp only [except_bind_ok, Bool.false_eq_true, if_false]
  exact ⟨hchunked.trans hsingle.symm, hchunked⟩

/-- C2 witness: the scenario of five sites processed in groups of two equals
the single pass, row for row. -/
theorem c2_witness :
    ((0:Nat) < 5 ∧ (0:Int) < 2 ∧ (1:Int) ≤ 1)
    ∧ (summarize_dset (.twoD 2 5 2 exData) (some 2) (some 1) []
        = summarize_dset (.twoD 2 5 2 exData) none (some 1) []
      ∧ summarize_dset (.twoD 2 5 2 exData) (some 2) (some 1) []
        = .ok ([], .table (compute_sites_summary exData 2 (List.range 5)))) :=
  ⟨⟨by decide, by decide, by decide⟩,
    c2_chunked_equals_single_pass 2 5 2 exData 2 1 (by decide) (by decide)
      (by decide)⟩

/-- C3: for every positive unit count and valid hints, the planned chunks are
contiguous, disjoint, in order and cover `[0, n)` exactly (their site lists
concatenate to `0, ..., n-1`), and the chunk count equals `ceil(n / ps)`; on
the node-count path, the per-node chunk size is `ceil(n / nodes)` — every
chunk except possibly the last has exactly that size and no chunk exceeds
it. -/
theorem c3_chunk_plan_covers (n nodes : Nat) (ps : Int)
    (hn : 0 < n) (hps : 0 < ps) (hnodes : 0 < nodes) :
    (planChunks n ps = .ok (arraySplit n (ceilDivNat n ps.toNat))
      ∧ ((arraySplit n (ceilDivNat n ps.toNat)).map chunkSites).flatten
        = List.range n
      ∧ (arraySplit n (ceilDivNat n ps.toNat)).length = ceilDivNat n ps.toNat)
    ∧ (sitesPerNode n nodes = ceilDivNat n nodes
      ∧ ((pointsControlSplit n (sitesPerNode n nodes)).map chunkSites).flatten
        = List.range n
      ∧ (pointsControlSplit n (sitesPerNode n nodes)).length
        = ceilDivNat n (sitesPerNode n nodes)
      ∧ (∀ i, i + 1 < (pointsControlSplit n (sitesPerNode n nodes)).length →
          ∃ c, (pointsControlSplit n (sitesPerNode n nodes))[i]? = some c
            ∧ c.2 - c.1 = sitesPerNode n nodes)
      ∧ (∀ c ∈ pointsControlSplit n (sitesPerNode n nodes),
          c.2 - c.1 ≤ sitesPerNode n nodes)) := by
  have hkpos : 0 < ceilDivNat n ps.toNat := ceilDivNat_pos n ps.toNat hn (by omega)
  refine ⟨⟨planChunks_eq_ok n ps hn hps, arraySplit_flatten n _ hkpos,
    arraySplit_length n _⟩, rfl, ?_, ?_, ?_, ?_⟩
  case _ =>
    -- coverage of the spec-modelled PointsControl split
    have hspn : 0 < sitesPerNode n nodes := ceilDivNat_pos n nodes hn hnodes
    unfold pointsControlSplit
    rw [List.map_map]
    have hcomp : (chunkSites ∘ fun i =>
        (min (i * sitesPerNode n nodes) n, min ((i + 1) * sitesPerNode n nodes) n))
        = fun i => List.range' (min (i * sitesPerNode n nodes) n)
          (min ((i + 1) * sitesPerNode n nodes) n
            - min (i * sitesPerNode n nodes) n) := rfl
    rw [hcomp]
    have hmono : ∀ i, i < ceilDivNat n (sitesPerNode n nodes) →
        min (i * sitesPerNode n nodes) n ≤ min ((i + 1) * sitesPerNode n nodes) n :=
      fun i _ => min_le_min (Nat.mul_le_mul_right _ (Nat.le_succ i)) (Nat.le_refl n)
    rw [flatten_ranges _ _ hmono]
    have h0 : min (0 * sitesPerNode n nodes) n = 0 := by simp
    have hlast : min (ceilDivNat n (sitesPerNode n nodes) * sitesPerNode n nodes) n
        = n := Nat.min_eq_right (le_ceilDivNat_mul n _ hspn)
    rw [h0, hlast, Nat.sub_zero, List.range_eq_range']
  case _ =>
    unfold pointsControlSplit
    simp
  case _ =>
    intro i hi
    have hspn : 0 < sitesPerNode n nodes := ceilDivNat_pos n nodes hn hnodes
    rw [pointsControlSplit, List.length_map, List.length_range] at hi
    have hpred := ceilDivNat_pred_mul_lt n (sitesPerNode n nodes) hn hspn
    have hsm : (i + 1) * sitesPerNode n nodes
        = i * sitesPerNode n nodes + sitesPerNode n nodes := by
      rw [Nat.add_mul, Nat.one_mul]
    have hle : (i + 1) * sitesPerNode n nodes ≤ n := by
      have h1 : (i + 1) * sitesPerNode n nodes
          ≤ (ceilDivNat n (sitesPerNode n nodes) - 1) * sitesPerNode n nodes :=
        Nat.mul_le_mul_right _ (by omega)
      omega
    have hle2 : i * sitesPerNode n nodes ≤ n := by omega
    refine ⟨(min (i * sitesPerNode n nodes) n,
      min ((i + 1) * sitesPerNode n nodes) n), ?_, ?_⟩
    · unfold pointsControlSplit
      rw [List.getElem?_map, List.getElem?_range (by omega)]
      rfl
    · rw [Nat.min_eq_left hle, Nat.min_eq_left hle2]
      omega
  case _ =>
    intro c hc
    unfold pointsControlSplit at hc
    rw [List.mem_map] at hc
    obtain ⟨i, _, hci⟩ := hc
    rw [← hci]
    have hsm : (i + 1) * sitesPerNode n nodes
        = i * sitesPerNode n nodes + sitesPerNode n nodes := by
      rw [Nat.add_mul, Nat.one_mul]
    omega

/-- C3 witness: 250 units, chunk-size hint 100, node count 3. -/
theorem c3_witness :
    ((0:Nat) < 250 ∧ (0:Int) < 100 ∧ (0:Nat) < 3)
    ∧ ((planChunks 250 100 = .ok (arraySplit 250 (ceilDivNat 250 (100:Int).toNat))
      ∧ ((arraySplit 250 (ceilDivNat 250 (100:Int).toNat)).map chunkSites).flatten
        = List.range 250
      ∧ (arraySplit 250 (ceilDivNat 250 (100:Int).toNat)).length
        = ceilDivNat 250 (100:Int).toNat)
    ∧ (sitesPerNode 250 3 = ceilDivNat 250 3
      ∧ ((pointsControlSplit 250 (sitesPerNode 250 3)).map chunkSites).flatten
        = List.range 250
      ∧ (pointsControlSplit 250 (sitesPerNode 250 3)).length
        = ceilDivNat 250 (sitesPerNode 250 3)
      ∧ (∀ i, i + 1 < (pointsControlSplit 250 (sitesPerNode 250 3)).length →
          ∃ c, (pointsControlSplit 250 (sitesPerNode 250 3))[i]? = some c
            ∧ c.2 - c.1 = sitesPerNode 250 3)
      ∧ (∀ c ∈ pointsControlSplit 250 (sitesPerNode 250 3),
          c.2 - c.1 ≤ sitesPerNode 250 3))) :=
  ⟨⟨by decide, by decide, by decide⟩,
    c3_chunk_plan_covers 250 3 100 (by decide) (by decide) (by decide)⟩

/-- C4 counterexample: planning 250 units with `process_size = 0` fails with
`ZeroDivisionError` from `len(sites) / process_size`, not with the
`InvalidPartitionError` the claim names (no such exception or check exists in
the code). -/
theorem c4_counterexample :
    planChunks 250 0 = .error PyError.zeroDivisionError
    ∧ planChunks 250 0 ≠ .error PyError.invalidPartitionError := by
  constructor
  · rfl
  · decide

/-- C4 amended: chunk planning never raises `InvalidPartitionError`; a zero
`process_size` raises `ZeroDivisionError` from the ceiling division, while a
negative `process_size` or a zero unit count makes the computed section count
nonpositive, so `np.array_split` raises `ValueError`.  In every failing case
the error propagates immediately and no chunk list is produced. -/
theorem c4_no_invalid_partition_error (n : Nat) (ps : Int)
    (hbad : ps ≤ 0 ∨ n = 0) :
    planChunks n ps = .error (if ps = 0 then PyError.zeroDivisionError
      else PyError.valueError)
    ∧ planChunks n ps ≠ .error PyError.invalidPartitionError := by
  have hmain : planChunks n ps = .error (if ps = 0 then PyError.zeroDivisionError
      else PyError.valueError) := by
    by_cases h0 : ps = 0
    · subst h0
      rw [if_pos rfl]
      rfl
    · rw [if_neg h0]
      rcases hbad with hneg | hn0
      · have hlt : ps < 0 := by omega
        unfold planChunks pyCeilSections
        rw [if_neg h0, if_neg (by omega)]
        simp only [except_bind_ok]
        rw [if_pos (show -Int.ofNat (n / ps.natAbs) ≤ 0 from
          Int.neg_nonpos_of_nonneg (Int.ofNat_nonneg _))]
      · subst hn0
        unfold planChunks pyCeilSections
        rw [if_neg h0]
        by_cases hpos : 0 < ps
        · have hk0 : ceilDivNat 0 ps.toNat = 0 := by
            unfold ceilDivNat
            rw [Nat.zero_add]
            exact Nat.div_eq_of_lt (by omega)
          rw [if_pos hpos]
          simp only [except_bind_ok]
          rw [hk0]
          rfl
        · rw [if_neg hpos]
          simp only [except_bind_ok]
          rw [if_pos (show -Int.ofNat (0 / ps.natAbs) ≤ 0 from
            Int.neg_nonpos_of_nonneg (Int.ofNat_nonneg _))]
  refine ⟨hmain, ?_⟩
  rw [hmain]
  by_cases h0 : ps = 0
  · rw [if_pos h0]
    decide
  · rw [if_neg h0]
    decide

/-- C4 amended witness: `process_size = 0` on 250 units. -/
theorem c4_witness :
    ((0:Int) ≤ 0 ∨ (250:Nat) = 0)
    ∧ (planChunks 250 0 = .error (if (0:Int) = 0 then PyError.zeroDivisionError
        else PyError.valueError)
      ∧ planChunks 250 0 ≠ .error PyError.invalidPartitionError) :=
  ⟨Or.inl (by decide), c4_no_invalid_partition_error 250 0 (Or.inl (by decide))⟩

/-- C5: calling `summarize_dset` on a 2-D dataset with the documented default
`max_workers = None` does not resolve `None` to the host core count — the
guard `max_workers > 1` compares `None` with an int and raises `TypeError`,
contradicting the function's own docstring ("if None use all available
cores"). -/
theorem c5_max_workers_none_raises :
    summarize_dset (.twoD 3 4 2 exData) none none []
      = .error PyError.typeError := rfl

/-- C6: on a 1-D dataset the summary is computed in a single serial pass and a
requested chunking/parallelism is reported as the 1-D warning, with the
summary still returned — when `process_size` is set, or `max_workers` is an
integer above 1.  But with the documented parallel default
`max_workers = None` (and no `process_size`) the guard
`process_size is not None or max_workers > 1` raises `TypeError` instead of
warning, the same defect as C5. -/
theorem c6_one_d_serial_with_warning :
    summarize_dset (.oneD [1, 2, 3]) (some 5) none []
        = .ok ([warn1D], Summary.vec 6)
    ∧ summarize_dset (.oneD [1, 2, 3]) none (some 4) []
        = .ok ([warn1D], Summary.vec 6)
    ∧ summarize_dset (.oneD [1, 2, 3]) none (some 1) []
        = .ok ([], Summary.vec 6)
    ∧ summarize_dset (.oneD [1, 2, 3]) none none []
        = .error PyError.typeError := by
  refine ⟨?_, ?_, ?_, rfl⟩ <;> decide

/-- C7 counterexample: merging chunk results whose declared spans sum to 4
rows but which carry only 3 rows returns the truncated 3-row table with no
error — `pd.concat` performs no integrity check and no `MergeIntegrityError`
exists in the code. -/
theorem c7_counterexample :
    mergeResults [[(0, 1), (1, 2)], [(2, 3)]] = .ok [(0, 1), (1, 2), (2, 3)]
    ∧ spanSum [(0, 2), (2, 4)] = 4
    ∧ (mergeResults [[(0, 1), (1, 2)], [(2, 3)]]
        ≠ .error PyError.mergeIntegrityError) := by
  refine ⟨by decide, by decide, by decide⟩

/-- C7 amended: the merge step performs no span-integrity check: given any
nonempty list of partial results, `pd.concat` returns their plain
concatenation, whose row count is the sum of the partial row counts —
whatever the chunks' declared spans were — and never raises
`MergeIntegrityError`. -/
theorem c7_merge_has_no_integrity_check (parts : List (List (Nat × Int)))
    (hne : parts ≠ []) :
    mergeResults parts = .ok parts.flatten
    ∧ parts.flatten.length = (parts.map List.length).sum
    ∧ mergeResults parts ≠ .error PyError.mergeIntegrityError := by
  have hok := mergeResults_eq_ok parts hne
  refine ⟨hok, ?_, ?_⟩
  · rw [List.length_flatten]
  · rw [hok]
    intro hc
    exact Except.noConfusion hc

/-- C7 amended witness: the one-row-short result set of the counterexample. -/
theorem c7_witness :
    ([[(0, 1), (1, 2)], [(2, 3)]] : List (List (Nat × Int))) ≠ []
    ∧ (mergeResults [[(0, 1), (1, 2)], [(2, 3)]]
        = .ok ([[(0, 1), (1, 2)], [(2, 3)]] : List (List (Nat × Int))).flatten
      ∧ ([[(0, 1), (1, 2)], [(2, 3)]] : List (List (Nat × Int))).flatten.length
        = (([[(0, 1), (1, 2)], [(2, 3)]] : List (List (Nat × Int))).map
            List.length).sum
      ∧ mergeResults [[(0, 1), (1, 2)], [(2, 3)]]
        ≠ .error PyError.mergeIntegrityError) :=
  ⟨by decide, c7_merge_has_no_integrity_check [[(0, 1), (1, 2)], [(2, 3)]]
    (by decide)⟩

/-- C8: a submission failure for one chunk does not block the rest: after the
peregrine dispatch loop over `n` chunks, the job registry has exactly one
entry per chunk index `0..n-1` in order, and a chunk whose submission failed
is recorded with a handle carrying a null (`none`) job id rather than being
omitted.  The non-raising behaviour of the `PBS` constructor is modelled from
the spec (see `PBSJob`). -/
theorem c8_failed_submission_recorded (name fout : List Char) (n : Nat)
    (backend : Nat → Option Nat) (i : Nat) (hi : i < n) :
    (peregrineJobs name fout n backend).map Prod.fst = List.range n
    ∧ ∃ job : PBSJob, (peregrineJobs name fout n backend)[i]? = some (i, job)
        ∧ job.id = backend i := by
  rw [peregrineJobs_eq]
  constructor
  · rw [List.map_map]
    exact List.map_id _
  · refine ⟨⟨name ++ usTag ++ natDecimal i,
      stripH5 fout ++ nodeTag ++ natDecimal i ++ h5Ext, backend i⟩, ?_, rfl⟩
    rw [List.getElem?_map, List.getElem?_range hi]
    rfl

/-- C8 witness: the spec scenario — five chunks, submission of chunk 2 forced
to fail; the registry still holds five entries keyed 0..4, entry 2 with a
null id, and entries 3 and 4 were still submitted. -/
theorem c8_witness :
    (2 < 5
      ∧ ((peregrineJobs ("gen".data) ("out.h5".data) 5 exBackend).map Prod.fst
          = List.range 5
        ∧ ∃ job : PBSJob,
            (peregrineJobs ("gen".data) ("out.h5".data) 5 exBackend)[2]?
              = some (2, job) ∧ job.id = exBackend 2))
    ∧ ((peregrineJobs ("gen".data) ("out.h5".data) 5 exBackend).map
        (fun e => (e.2.id))) = [some 100, some 101, none, some 103, some 104] :=
  ⟨⟨by decide, c8_failed_submission_recorded ("gen".data) ("out.h5".data) 5
      exBackend 2 (by decide)⟩, by decide⟩

/-- C9 counterexample: for the base output name `'h5out.h5'`, chunk 0's
output artifact is `'out_node_0.h5'`, not `'h5out_node_0.h5'`:
`fout.strip('.h5')` removes every leading and trailing character of the set
`.`, `h`, `5` — here also the leading `h5` of the stem — not just the `.h5`
extension, refuting the claimed derivation. -/
theorem c9_counterexample :
    (peregrineJobs ("gen".data) ("h5out.h5".data) 1 exBackend)[0]?
        = some (0, ⟨"gen_0".data, "out_node_0.h5".data, exBackend 0⟩)
    ∧ ("out_node_0.h5".data : List Char) ≠ ("h5out_node_0.h5".data : List Char) := by
  refine ⟨by decide, by decide⟩

/-- C9 amended: the sub-job output name of chunk `i` is deterministically
`strip('.h5')` of the base name — which removes all leading and trailing
characters of the set `.`, `h`, `5`, not only the extension — followed by
`'_node_' + i + '.h5'`; distinct chunk indices always yield distinct output
filenames. -/
theorem c9_fout_node_names (name fout : List Char) (n : Nat)
    (backend : Nat → Option Nat) (i j : Nat)
    (hi : i < n) (hj : j < n) (hne : i ≠ j) :
    (∃ jb : PBSJob, (peregrineJobs name fout n backend)[i]? = some (i, jb)
        ∧ jb.foutNode = stripH5 fout ++ nodeTag ++ natDecimal i ++ h5Ext)
    ∧ ∀ jb jb' : PBSJob,
        (peregrineJobs name fout n backend)[i]? = some (i, jb) →
        (peregrineJobs name fout n backend)[j]? = some (j, jb') →
        jb.foutNode ≠ jb'.foutNode := by
  rw [peregrineJobs_eq]
  constructor
  · refine ⟨⟨name ++ usTag ++ natDecimal i,
      stripH5 fout ++ nodeTag ++ natDecimal i ++ h5Ext, backend i⟩, ?_, rfl⟩
    rw [List.getElem?_map, List.getElem?_range hi]
    rfl
  · intro jb jb' hjb hjb'
    rw [List.getElem?_map, List.getElem?_range hi] at hjb
    rw [List.getElem?_map, List.getElem?_range hj] at hjb'
    simp only [Option.map_some', Option.some.injEq, Prod.mk.injEq, true_and] at hjb hjb'
    rw [← hjb, ← hjb']
    intro hcon
    exact hne (foutNode_inj (stripH5 fout) i j hcon)

/-- C9 amended witness: base name `'out.h5'`, chunks 0 and 1. -/
theorem c9_witness :
    (0 < 2 ∧ 1 < 2 ∧ (0 : Nat) ≠ 1)
    ∧ ((∃ jb : PBSJob,
        (peregrineJobs ("gen".data) ("out.h5".data) 2 exBackend)[0]?
          = some (0, jb)
        ∧ jb.foutNode = stripH5 ("out.h5".data) ++ nodeTag ++ natDecimal 0 ++ h5Ext)
      ∧ ∀ jb jb' : PBSJob,
          (peregrineJobs ("gen".data) ("out.h5".data) 2 exBackend)[0]?
            = some (0, jb) →
          (peregrineJobs ("gen".data) ("out.h5".data) 2 exBackend)[1]?
            = some (1, jb') →
          jb.foutNode ≠ jb'.foutNode) :=
  ⟨⟨by decide, by decide, by decide⟩,
    c9_fout_node_names ("gen".data) ("out.h5".data) 2 exBackend 0 1
      (by decide) (by decide) (by decide)⟩

/-- C10: for every configuration, `AggregationConfig._preflight` raises
`ConfigError` even when all four required keys are present and non-None: the
check tests `any(req)` over the loop variable left holding the last
requirement name `'dset_tm'` — a nonempty, hence truthy, string — instead of
`any(missing)`, so the missing-keys branch is always taken and reports an
empty missing list. -/
theorem c10_preflight_always_raises (present : String → Bool)
    (hall : ∀ r ∈ REQUIREMENTS, present r = true) :
    preflightCheck present = .error (.configError [])
    ∧ preflightMissing present = [] := by
  have hmiss : preflightMissing present = [] := by
    unfold preflightMissing
    rw [List.filter_eq_nil_iff]
    intro a ha
    simp [hall a ha]
  refine ⟨?_, hmiss⟩
  show (if pyAnyStr (REQUIREMENTS.getLastD default) then
      Except.error (PyError.configError (preflightMissing present))
    else Except.ok ()) = _
  rw [hmiss]
  rfl

/-- C10 witness: a configuration with every key present. -/
theorem c10_witness :
    (∀ r ∈ REQUIREMENTS, (fun _ : String => true) r = true)
    ∧ (preflightCheck (fun _ : String => true) = .error (.configError [])
      ∧ preflightMissing (fun _ : String => true) = []) :=
  ⟨by decide, c10_preflight_always_raises (fun _ => true) (by decide)⟩
